import Mathlib

/-!
Verification of the collections pipeline (main.go).

A shallow embedding of the program's core: the specimen record built by
the CSV reader, the grouping of specimens by Wikidata identifier, the
chunked Commons statistics queries spawned by queryWdq, the per-page map
updates of queryCommons, the subcategory file-count sum of
queryCommonsSubcats, the statistics merge onto specimens, the sort used
by updateWikiPage and its template/publish sequence.

Conventions of the embedding:
- Go maps become total functions with the Go zero value as default
  (a missing key reads as the zero value, exactly as in Go).
- Go int becomes Int; file and subcategory counts coming from the
  Commons API are modelled as Nat (they are counts) and cast to Int
  where the Go code stores them in int fields.
- External services are oracles passed as function arguments: the WDQ
  response is a list of rows, a Commons chunk query yields the list of
  result pages accumulated over its pagination, the subcategory query
  for a category name yields the list of its direct children pages.
- Fallible steps become Except; the program's check-and-abort is Except
  propagation.
-/

/- Data model: the specimen structure of main.go. -/

structure specimen where
  OriginalName : String
  VernacularName : String
  WikidataItemId : String
  CommonsCategoryName : String
  FileCount : Int
  SubCats : Int
  SubCatsFileCounts : Int
  TotalFiles : Int
  Treatment : String
  AccessionNumber : String
  SpecimenCategory : String
deriving DecidableEq, Repr

def CATEGORY_NAMESPACE : String := "Category:"

/-- One row of the WDQ props response: the code reads itemProp[0] as the
item id (a number) and itemProp[2] as the Commons category name. -/
structure wdqRow where
  itemId : Nat
  categoryName : String
deriving DecidableEq, Repr

/-- A specimen as built by readCsvFile from one 9-field CSV record:
fields 4 and 5 are ignored, the remaining Go struct fields start at
their zero values. -/
def readSpecimenRow (record : List String) : Option specimen :=
  if h : record.length = 9 then
    some
      { OriginalName := record.get ⟨0, by omega⟩
        VernacularName := record.get ⟨1, by omega⟩
        WikidataItemId := record.get ⟨7, by omega⟩
        CommonsCategoryName := ""
        FileCount := 0
        SubCats := 0
        SubCatsFileCounts := 0
        TotalFiles := 0
        Treatment := record.get ⟨2, by omega⟩ ++ " / " ++ record.get ⟨3, by omega⟩
        AccessionNumber := record.get ⟨6, by omega⟩
        SpecimenCategory := record.get ⟨8, by omega⟩ }
  else none

/- Identifier grouping (first loop of queryWdq). -/

/-- strings.TrimPrefix(id, "Q"): when the identifier begins with the
letter Q, that letter is removed, otherwise the identifier is returned
unchanged.  Stated over the character list so the kernel can evaluate
it. -/
def trimQ (s : String) : String :=
  match s.data with
  | 'Q' :: rest => String.mk rest
  | _ => s

/-- The key under which a specimen is grouped. -/
def specimenKey (s : specimen) : String := trimQ s.WikidataItemId

/-- The specimensByWikidataId map of queryWdq: each incoming specimen is
appended to the group of its trimmed Wikidata id.  The Go map is
modelled as a total function defaulting to the empty group. -/
def specimensByWikidataId (records : List specimen) : String → List specimen :=
  records.foldl
    (fun m r => fun k => if k = specimenKey r then m k ++ [r] else m k)
    (fun _ => [])

/-- The wikidataIds list accumulated in the same loop (one entry per
record, duplicates retained, first-seen order). -/
def wikidataIds (records : List specimen) : List String :=
  records.map specimenKey

/- Chunking loop of queryWdq (categoryNames sliced into Commons queries). -/

/-- The Commons category names accumulated while looping over the WDQ
result rows: one entry per row, prefixed with the category namespace. -/
def categoryNamesOf (rows : List wdqRow) : List String :=
  rows.map (fun r => CATEGORY_NAMESPACE ++ r.categoryName)

/-- One iteration of the chunk-spawning loop: state is (cursor, queries
spawned so far); at index i with i > 0 and i % 50 = 0 the slice
categoryNames[i-50:i] is sent and the cursor moves to i. -/
def wdqStep (names : List String) (st : Nat × List (List String)) (i : Nat) :
    Nat × List (List String) :=
  if 0 < i ∧ i % 50 = 0 then (i, st.2 ++ [(names.drop (i - 50)).take 50]) else st

/-- The whole loop over the row indices. -/
def wdqLoop (names : List String) : Nat × List (List String) :=
  (List.range names.length).foldl (wdqStep names) (0, [])

/-- All chunks sent to queryCommons: the ones spawned inside the loop
followed by the unconditional final query categoryNames[cursor:]. -/
def commonsChunks (names : List String) : List (List String) :=
  (wdqLoop names).2 ++ [names.drop (wdqLoop names).1]

/- Characterization of the chunking loop. -/

lemma wdqLoop_aux (names : List String) (m : Nat) :
    (List.range m).foldl (wdqStep names) (0, [])
      = (50 * ((m - 1) / 50),
         (List.range ((m - 1) / 50)).map (fun j => (names.drop (50 * j)).take 50)) := by
  induction m with
  | zero => simp
  | succ n ih =>
    rw [List.range_succ, List.foldl_append, ih]
    simp only [List.foldl_cons, List.foldl_nil, wdqStep]
    by_cases h : 0 < n ∧ n % 50 = 0
    · rw [if_pos h]
      have h1 : (n + 1 - 1) / 50 = (n - 1) / 50 + 1 := by omega
      rw [h1, List.range_succ, List.map_append, List.map_cons, List.map_nil]
      have h3 : 50 * ((n - 1) / 50) = n - 50 := by omega
      rw [h3]
      simp only [Prod.mk.injEq]
      refine ⟨by omega, ?_⟩
      trivial
    · have h1 : (n + 1 - 1) / 50 = (n - 1) / 50 := by omega
      rw [h1, if_neg h]

lemma wdqLoop_spec (names : List String) :
    wdqLoop names
      = (50 * ((names.length - 1) / 50),
         (List.range ((names.length - 1) / 50)).map
           (fun j => (names.drop (50 * j)).take 50)) :=
  wdqLoop_aux names names.length

lemma commonsChunks_spec (names : List String) :
    commonsChunks names
      = (List.range ((names.length - 1) / 50)).map
          (fun j => (names.drop (50 * j)).take 50)
        ++ [names.drop (50 * ((names.length - 1) / 50))] := by
  unfold commonsChunks
  rw [wdqLoop_spec]

lemma flatten_ranges (l : List String) (k : Nat) :
    (((List.range k).map (fun j => (l.drop (50 * j)).take 50)).flatten)
      ++ l.drop (50 * k) = l := by
  induction k with
  | zero => simp
  | succ n ih =>
    rw [List.range_succ, List.map_append, List.flatten_append, List.map_cons,
      List.map_nil]
    have hd : l.drop (50 * (n + 1)) = (l.drop (50 * n)).drop 50 := by
      rw [List.drop_drop]
      congr 1
    rw [hd]
    simp only [List.flatten_cons, List.flatten_nil, List.append_nil,
      List.append_assoc]
    rw [List.take_append_drop]
    exact ih

lemma commonsChunks_flatten (names : List String) :
    (commonsChunks names).flatten = names := by
  rw [commonsChunks_spec, List.flatten_append, List.flatten_cons, List.flatten_nil,
    List.append_nil]
  exact flatten_ranges names _

lemma commonsChunks_length (names : List String) :
    (commonsChunks names).length = (names.length - 1) / 50 + 1 := by
  rw [commonsChunks_spec]
  simp

lemma commonsChunks_le50 (names : List String) :
    ∀ c ∈ commonsChunks names, c.length ≤ 50 := by
  rw [commonsChunks_spec]
  intro c hc
  rcases List.mem_append.mp hc with h | h
  · obtain ⟨j, _, rfl⟩ := List.mem_map.mp h
    exact List.length_take_le _ _
  · rw [List.mem_singleton.mp h]
    rw [List.length_drop]
    omega

/-- C1: the claim as stated fails at N = 0: the code unconditionally
sends the final query categoryNames[cursor:], so the empty name list is
split into one (empty) chunk, not into zero chunks as the ceiling
formula demands. -/
theorem C1_counterexample :
    ¬ ((commonsChunks ([] : List String)).length
        = (([] : List String).length + 49) / 50) := by decide

/-- C1 (amended): concatenating all chunks reproduces the original names
exactly once each (in particular the final chunk is sent exactly once,
also when the length is an exact multiple of 50), every chunk holds at
most 50 names, the number of chunks is (N-1)/50 + 1, and for N at least 1
that number equals the ceiling of N/50.  For N = 0 the code still sends a
single empty chunk. -/
theorem C1_amended (names : List String) (c : List String)
    (hc : c ∈ commonsChunks names) :
    (commonsChunks names).flatten = names
    ∧ c.length ≤ 50
    ∧ (commonsChunks names).length = (names.length - 1) / 50 + 1
    ∧ (names ≠ [] → (commonsChunks names).length = (names.length + 49) / 50) := by
  refine ⟨commonsChunks_flatten names, commonsChunks_le50 names c hc,
    commonsChunks_length names, fun hne => ?_⟩
  have hl : 0 < names.length := List.length_pos.mpr hne
  rw [commonsChunks_length]
  omega

/-- Witness for C1 at a one-element name list. -/
theorem C1_amended_witness :
    (commonsChunks ["a"]).flatten = ["a"]
    ∧ (commonsChunks ["a"]).length = (1 + 49) / 50 :=
  ⟨(C1_amended ["a"] ["a"] (by decide)).1,
   (C1_amended ["a"] ["a"] (by decide)).2.2.2 (by decide)⟩

/- Commons statistics model (queryCommons / queryCommonsSubcats). -/

/-- The per-category info struct written into the shared map. -/
structure categoryInfo where
  files : Int
  subCats : Int
  subCatsFiles : Int
deriving DecidableEq, Repr

/-- One page of a Commons categoryinfo response: the title plus the
optional files and subcats counts (GetInt64 failing on an absent field
is the none case). Counts are Nat because the API reports counts. -/
structure commonsPage where
  title : String
  files : Option Nat
  subcats : Option Nat
deriving DecidableEq, Repr

/-- The files count read from a page, defaulting to 0 when absent. -/
def pageFiles (p : commonsPage) : Int :=
  match p.files with
  | some f => (f : Int)
  | none => 0

/-- The subcats count read from a page, defaulting to 0 when absent. -/
def pageSubcats (p : commonsPage) : Int :=
  match p.subcats with
  | some s => (s : Int)
  | none => 0

/-- The totalFiles accumulation of queryCommonsSubcats over the pages of
the subcategory-scoped query: pages with an absent files field are
skipped. -/
def subcatsTotalOf (pages : List commonsPage) : Int :=
  pages.foldl
    (fun acc p =>
      match p.files with
      | some f => acc + (f : Int)
      | none => acc)
    0

/-- queryCommonsSubcats for one category name, given the oracle sub that
yields the pages of the direct-subcategories query (one level deep:
the definition does not recurse). -/
def queryCommonsSubcats (sub : String → List commonsPage) (categoryName : String) : Int :=
  subcatsTotalOf (sub categoryName)

/-- Handling of one result page inside queryCommons: the current entry
of the shared map is copied, files and subcats are overwritten (0 when
absent), subCatsFiles is recomputed only when the new subcats count is
positive (otherwise the copied value is kept), and the entry is stored
back under the page title. -/
def processPage (sub : String → List commonsPage) (m : String → categoryInfo)
    (p : commonsPage) : String → categoryInfo :=
  fun t =>
    if t = p.title then
      { files := pageFiles p
        subCats := pageSubcats p
        subCatsFiles :=
          if 0 < pageSubcats p then queryCommonsSubcats sub p.title
          else (m p.title).subCatsFiles }
    else m t

/-- queryCommons over all pages of one chunk query (accumulated across
its pagination), updating the shared map page by page. -/
def queryCommons (sub : String → List commonsPage) (m : String → categoryInfo)
    (pages : List commonsPage) : String → categoryInfo :=
  pages.foldl (processPage sub) m

/-- The whole fetch phase: every chunk's query is run against the map,
starting from the empty Go map (all entries at the zero value).  resp is
the oracle giving the pages answered for one chunk. -/
def runFetcher (sub : String → List commonsPage)
    (resp : List String → List commonsPage)
    (chunks : List (List String)) : String → categoryInfo :=
  chunks.foldl (fun m ch => queryCommons sub m (resp ch)) (fun _ => ⟨0, 0, 0⟩)

lemma foldl_queryCommons_flat (sub : String → List commonsPage)
    (resp : List String → List commonsPage) (chunks : List (List String)) :
    ∀ m : String → categoryInfo,
      chunks.foldl (fun m ch => queryCommons sub m (resp ch)) m
        = (chunks.flatMap resp).foldl (processPage sub) m := by
  induction chunks with
  | nil => intro m; rfl
  | cons ch rest ih =>
    intro m
    rw [List.foldl_cons, List.flatMap_cons, List.foldl_append]
    exact ih _

lemma runFetcher_flat (sub : String → List commonsPage)
    (resp : List String → List commonsPage) (chunks : List (List String)) :
    runFetcher sub resp chunks
      = (chunks.flatMap resp).foldl (processPage sub) (fun _ => ⟨0, 0, 0⟩) :=
  foldl_queryCommons_flat sub resp chunks _

/- C2: deduplication. -/

lemma count_categoryNamesOf (rows : List wdqRow) (name : String) :
    (categoryNamesOf rows).count name
      = (rows.filter (fun r => CATEGORY_NAMESPACE ++ r.categoryName == name)).length := by
  induction rows with
  | nil => simp [categoryNamesOf]
  | cons r rest ih =>
    simp only [categoryNamesOf, List.map_cons, List.count_cons, List.filter_cons]
    by_cases h : CATEGORY_NAMESPACE ++ r.categoryName = name
    · simp only [h, beq_self_eq_true, if_true, List.length_cons]
      rw [← ih]
      simp [categoryNamesOf]
    · have hb : (CATEGORY_NAMESPACE ++ r.categoryName == name) = false := by
        simpa using h
      simp only [hb, if_false, Bool.false_eq_true]
      rw [← ih]
      simp [categoryNamesOf]

/-- Writing the same page twice is idempotent: the second write stores
the same entry (the key-level deduplication the spec describes). -/
lemma processPage_idem (sub : String → List commonsPage)
    (m : String → categoryInfo) (p : commonsPage) :
    processPage sub (processPage sub m p) p = processPage sub m p := by
  funext t
  by_cases ht : t = p.title
  · by_cases hs : 0 < pageSubcats p
    · simp [processPage, ht, hs]
    · simp [processPage, ht, hs]
  · simp [processPage, ht]

/-- A WDQ response reporting the same category name for 52 distinct
item identifiers. -/
def dupRows : List wdqRow :=
  (List.range 52).map (fun i => { itemId := i, categoryName := "Foo" })

/-- C2: the claim fails on the code: a category name reported for more
than one taxon identifier is appended to categoryNames once per row, so
here it occurs 50 times in the first chunk's query and twice in the
second chunk's query, totalling 52 occurrences among the query inputs,
not exactly one. -/
theorem C2_counterexample :
    ((commonsChunks (categoryNamesOf dupRows)).map
        (fun c => c.count "Category:Foo") = [50, 2])
    ∧ (dupRows.map (fun r => r.itemId)).dedup.length = 52
    ∧ ¬ (((commonsChunks (categoryNamesOf dupRows)).flatten).count "Category:Foo" = 1) := by
  decide

/-- C2 (amended): a category name is included in the concatenated chunk
query inputs exactly once per WDQ result row reporting it (so a name in
several taxon groups is queried several times); deduplication happens
only at the CategoryIndex key, where a repeated write of the same page
is idempotent, leaving a single binding per name. -/
theorem C2_amended (rows : List wdqRow) (name : String)
    (sub : String → List commonsPage) (m : String → categoryInfo)
    (p : commonsPage) :
    ((commonsChunks (categoryNamesOf rows)).flatten).count name
      = (rows.filter (fun r => CATEGORY_NAMESPACE ++ r.categoryName == name)).length
    ∧ processPage sub (processPage sub m p) p = processPage sub m p := by
  constructor
  · rw [commonsChunks_flatten]
    exact count_categoryNamesOf rows name
  · exact processPage_idem sub m p

/- C7: the grouping is a partition. -/

lemma foldl_groups (records : List specimen) :
    ∀ (m : String → List specimen) (k : String),
      (records.foldl
        (fun m r => fun k2 => if k2 = specimenKey r then m k2 ++ [r] else m k2) m) k
        = m k ++ records.filter (fun x => specimenKey x == k) := by
  induction records with
  | nil => intro m k; simp
  | cons r rest ih =>
    intro m k
    rw [List.foldl_cons, ih, List.filter_cons]
    by_cases h : specimenKey r = k
    · simp [h, List.append_assoc]
    · simp [h, Ne.symm h]

lemma specimensByWikidataId_eq_filter (records : List specimen) (k : String) :
    specimensByWikidataId records k
      = records.filter (fun x => specimenKey x == k) := by
  unfold specimensByWikidataId
  rw [foldl_groups]
  simp

lemma count_filter_key (records : List specimen) (k : String) (r : specimen) :
    (records.filter (fun x => specimenKey x == k)).count r
      = if specimenKey r = k then records.count r else 0 := by
  by_cases hr : specimenKey r = k
  · rw [if_pos hr]
    exact List.count_filter (by simpa using hr)
  · rw [if_neg hr]
    rw [List.count_eq_zero]
    intro hmem
    exact hr (by simpa using List.of_mem_filter hmem)

lemma count_flatMap_groups (records : List specimen) (r : specimen) :
    ∀ ks : List String,
      ((ks.flatMap (fun k => records.filter (fun x => specimenKey x == k))).count r)
        = (ks.count (specimenKey r)) * (records.count r) := by
  intro ks
  induction ks with
  | nil => simp
  | cons k rest ih =>
    rw [List.flatMap_cons, List.count_append, ih, count_filter_key, List.count_cons]
    by_cases h : specimenKey r = k
    · rw [if_pos h]
      have hb : (k == specimenKey r) = true := by simpa using h.symm
      rw [hb]
      simp only [if_true]
      ring
    · rw [if_neg h]
      have hb : (k == specimenKey r) = false := by
        simp only [beq_eq_false_iff_ne, ne_eq]
        intro he
        exact h he.symm
      rw [hb]
      simp

/-- The union of all taxon groups, enumerated over the distinct group
keys (the key set of the Go map). -/
def taxonGroupsUnion (records : List specimen) : List specimen :=
  ((wikidataIds records).dedup).flatMap (specimensByWikidataId records)

lemma perm_taxonGroupsUnion (records : List specimen) :
    (taxonGroupsUnion records).Perm records := by
  rw [List.perm_iff_count]
  intro r
  unfold taxonGroupsUnion
  have hg : (specimensByWikidataId records) = fun k =>
      records.filter (fun x => specimenKey x == k) := by
    funext k
    exact specimensByWikidataId_eq_filter records k
  rw [hg, count_flatMap_groups]
  by_cases hr : r ∈ records
  · have hk : specimenKey r ∈ (wikidataIds records).dedup := by
      rw [List.mem_dedup]
      exact List.mem_map_of_mem specimenKey hr
    have h1 : ((wikidataIds records).dedup).count (specimenKey r) = 1 :=
      List.count_eq_one_of_mem (List.nodup_dedup _) hk
    rw [h1, one_mul]
  · have h0 : records.count r = 0 := List.count_eq_zero.mpr hr
    rw [h0, mul_zero]

/-- C7: grouping by taxon identifier partitions the catalog: the union
of all TaxonGroup member lists is a permutation of the original record
sequence, so every record appears exactly once, none duplicated, none
dropped. -/
theorem C7_partition (records : List specimen) :
    (taxonGroupsUnion records).Perm records :=
  perm_taxonGroupsUnion records

/- Merger (second half of queryWdq): statistics lookup and totals. -/

/-- The merge step applied to one specimen: the Go map lookup
categoryInfo[name] yields the zero value for a missing key; the four
numeric fields are then filled and TotalFiles is the sum. -/
def mergeSpecimen (index : String → categoryInfo) (s : specimen) : specimen :=
  { s with
    FileCount := (index s.CommonsCategoryName).files
    SubCats := (index s.CommonsCategoryName).subCats
    SubCatsFileCounts := (index s.CommonsCategoryName).subCatsFiles
    TotalFiles := (index s.CommonsCategoryName).files
      + (index s.CommonsCategoryName).subCatsFiles }

/-- The merged sequence handed to the page-update routine: every
specimen of every taxon group, statistics merged in. -/
def mergedOutput (index : String → categoryInfo) (records : List specimen) :
    List specimen :=
  (taxonGroupsUnion records).map (mergeSpecimen index)

lemma subcatsTotalOf_aux (pages : List commonsPage) :
    ∀ acc : Int,
      acc ≤ pages.foldl
        (fun acc p =>
          match p.files with
          | some f => acc + (f : Int)
          | none => acc) acc := by
  induction pages with
  | nil => intro acc; exact le_refl acc
  | cons p rest ih =>
    intro acc
    rw [List.foldl_cons]
    refine le_trans ?_ (ih _)
    cases hf : p.files with
    | none => simp
    | some f =>
      simp only
      have : (0 : Int) ≤ (f : Int) := Int.natCast_nonneg f
      omega

lemma subcatsTotalOf_nonneg (pages : List commonsPage) :
    0 ≤ subcatsTotalOf pages :=
  subcatsTotalOf_aux pages 0

lemma pageFiles_nonneg (p : commonsPage) : 0 ≤ pageFiles p := by
  unfold pageFiles
  cases p.files with
  | none => exact le_refl 0
  | some f => exact Int.natCast_nonneg f

lemma pageSubcats_nonneg (p : commonsPage) : 0 ≤ pageSubcats p := by
  unfold pageSubcats
  cases p.subcats with
  | none => exact le_refl 0
  | some s => exact Int.natCast_nonneg s

/-- Every entry of the index produced by the fetch phase has
non-negative files, subCats and subCatsFiles. -/
lemma foldl_processPage_nonneg (sub : String → List commonsPage)
    (pages : List commonsPage) :
    ∀ m : String → categoryInfo,
      (∀ t, 0 ≤ (m t).files ∧ 0 ≤ (m t).subCats ∧ 0 ≤ (m t).subCatsFiles) →
      ∀ t, 0 ≤ ((pages.foldl (processPage sub) m) t).files
        ∧ 0 ≤ ((pages.foldl (processPage sub) m) t).subCats
        ∧ 0 ≤ ((pages.foldl (processPage sub) m) t).subCatsFiles := by
  induction pages with
  | nil => intro m hm; exact hm
  | cons p rest ih =>
    intro m hm
    rw [List.foldl_cons]
    refine ih _ ?_
    intro t
    unfold processPage
    by_cases ht : t = p.title
    · rw [if_pos ht]
      refine ⟨pageFiles_nonneg p, pageSubcats_nonneg p, ?_⟩
      by_cases hs : 0 < pageSubcats p
      · rw [if_pos hs]
        exact subcatsTotalOf_nonneg _
      · rw [if_neg hs]
        exact (hm p.title).2.2
    · rw [if_neg ht]
      exact hm t

lemma runFetcher_nonneg (sub : String → List commonsPage)
    (resp : List String → List commonsPage) (chunks : List (List String))
    (t : String) :
    0 ≤ ((runFetcher sub resp chunks) t).files
      ∧ 0 ≤ ((runFetcher sub resp chunks) t).subCats
      ∧ 0 ≤ ((runFetcher sub resp chunks) t).subCatsFiles := by
  rw [runFetcher_flat]
  exact foldl_processPage_nonneg sub (chunks.flatMap resp) _ (fun _ => by
    refine ⟨le_refl 0, le_refl 0, le_refl 0⟩) t

/-- C3: every record emitted by the merger satisfies total file count =
own file count + aggregated subcategory file count, and both of those
are non-negative (the index only ever holds counts coming from the
service, cast from naturals, or the zero default). -/
theorem C3_total_consistency (sub : String → List commonsPage)
    (resp : List String → List commonsPage) (chunks : List (List String))
    (records : List specimen) (m : specimen)
    (hm : m ∈ mergedOutput (runFetcher sub resp chunks) records) :
    m.TotalFiles = m.FileCount + m.SubCatsFileCounts
    ∧ 0 ≤ m.FileCount ∧ 0 ≤ m.SubCatsFileCounts := by
  obtain ⟨s, _, rfl⟩ := List.mem_map.mp hm
  have hnn := runFetcher_nonneg sub resp chunks s.CommonsCategoryName
  exact ⟨rfl, hnn.1, hnn.2.2⟩

/- Concrete instances used by the witnesses. -/

def spec0 : specimen :=
  { OriginalName := "Abies alba"
    VernacularName := "Sapin blanc"
    WikidataItemId := "Q1"
    CommonsCategoryName := ""
    FileCount := 0
    SubCats := 0
    SubCatsFileCounts := 0
    TotalFiles := 0
    Treatment := "naturalisé / entier"
    AccessionNumber := "A1"
    SpecimenCategory := "herbier" }

def records0 : List specimen := [spec0]

def sub0 : String → List commonsPage := fun _ => []

def resp0 : List String → List commonsPage := fun _ => []

def chunks0 : List (List String) := [[]]

/-- Witness for C3 on a concrete one-record run. -/
theorem C3_total_consistency_witness :
    (mergeSpecimen (runFetcher sub0 resp0 chunks0) spec0).TotalFiles
        = (mergeSpecimen (runFetcher sub0 resp0 chunks0) spec0).FileCount
          + (mergeSpecimen (runFetcher sub0 resp0 chunks0) spec0).SubCatsFileCounts
    ∧ 0 ≤ (mergeSpecimen (runFetcher sub0 resp0 chunks0) spec0).FileCount
    ∧ 0 ≤ (mergeSpecimen (runFetcher sub0 resp0 chunks0) spec0).SubCatsFileCounts :=
  C3_total_consistency sub0 resp0 chunks0 records0
    (mergeSpecimen (runFetcher sub0 resp0 chunks0) spec0) (by decide)

/- C4: missing keys yield zero-valued statistics. -/

/-- A key never written by any processed page keeps its initial entry. -/
lemma foldl_processPage_untouched (sub : String → List commonsPage)
    (pages : List commonsPage) (t : String)
    (h : ∀ p ∈ pages, p.title ≠ t) :
    ∀ m : String → categoryInfo, (pages.foldl (processPage sub) m) t = m t := by
  induction pages with
  | nil => intro m; rfl
  | cons p rest ih =>
    intro m
    rw [List.foldl_cons]
    have hrest : ∀ q ∈ rest, q.title ≠ t := fun q hq => h q (List.mem_cons_of_mem p hq)
    rw [ih hrest]
    unfold processPage
    rw [if_neg (fun he => h p (List.mem_cons_self p rest) he.symm)]

/-- Bool test that a title carries the category namespace as its leading
characters (the shape of every title the fetch phase ever asks for). -/
def leadsWith : List Char → List Char → Bool
  | [], _ => true
  | _ :: _, [] => false
  | a :: as, b :: bs => a == b && leadsWith as bs

def titleHasCatNs (t : String) : Bool := leadsWith CATEGORY_NAMESPACE.data t.data

lemma titleHasCatNs_ne_empty (t : String) (h : titleHasCatNs t = true) : t ≠ "" := by
  intro he
  rw [he] at h
  exact absurd h (by decide)

/-- C4: a specimen whose resolved category name is missing from the
index — the empty name when every stored title carries the category
namespace, or any name no response page ever carried — is merged with
all four numeric fields equal to 0, and the merged record still appears
in the output sequence handed to the renderer (no error path exists). -/
theorem C4_missing_key_defaults (sub : String → List commonsPage)
    (resp : List String → List commonsPage) (chunks : List (List String))
    (records : List specimen) (s : specimen)
    (hs : s ∈ records)
    (hmiss : (s.CommonsCategoryName = ""
          ∧ ∀ p ∈ chunks.flatMap resp, titleHasCatNs p.title = true)
        ∨ (∀ p ∈ chunks.flatMap resp, p.title ≠ s.CommonsCategoryName)) :
    mergeSpecimen (runFetcher sub resp chunks) s
        = { s with FileCount := 0, SubCats := 0, SubCatsFileCounts := 0,
                   TotalFiles := 0 }
    ∧ mergeSpecimen (runFetcher sub resp chunks) s
        ∈ mergedOutput (runFetcher sub resp chunks) records := by
  have hne : ∀ p ∈ chunks.flatMap resp, p.title ≠ s.CommonsCategoryName := by
    rcases hmiss with ⟨hemp, hns⟩ | hm
    · intro p hp
      rw [hemp]
      exact titleHasCatNs_ne_empty p.title (hns p hp)
    · exact hm
  have hidx : (runFetcher sub resp chunks) s.CommonsCategoryName = ⟨0, 0, 0⟩ := by
    rw [runFetcher_flat]
    exact foldl_processPage_untouched sub (chunks.flatMap resp)
      s.CommonsCategoryName hne _
  constructor
  · unfold mergeSpecimen
    rw [hidx]
    rfl
  · exact List.mem_map_of_mem _
      ((perm_taxonGroupsUnion records).mem_iff.mpr hs)

/-- Witness for C4: the unresolved record of the concrete run is merged
with zero statistics and reaches the output. -/
theorem C4_missing_key_defaults_witness :
    mergeSpecimen (runFetcher sub0 resp0 chunks0) spec0
        = { spec0 with FileCount := 0, SubCats := 0, SubCatsFileCounts := 0,
                       TotalFiles := 0 }
    ∧ mergeSpecimen (runFetcher sub0 resp0 chunks0) spec0
        ∈ mergedOutput (runFetcher sub0 resp0 chunks0) records0 :=
  C4_missing_key_defaults sub0 resp0 chunks0 records0 spec0 (by decide)
    (Or.inr (by decide))

/- C5: category-name resolution indexed by identifier. -/

/-- The resolution loop of queryWdq: for each WDQ result row, the group
stored under strconv.Itoa(itemId) is looked up and every specimen in it
receives the namespaced category name (rows whose identifier has no
group update nothing, since the missing key reads as the empty group). -/
def setCategoryNames (rows : List wdqRow) (groups : String → List specimen) :
    String → List specimen :=
  rows.foldl
    (fun g row => fun k =>
      if k = toString row.itemId then
        (g k).map (fun s =>
          { s with CommonsCategoryName := CATEGORY_NAMESPACE ++ row.categoryName })
      else g k)
    groups

lemma setCategoryNames_cons (r : wdqRow) (rest : List wdqRow)
    (g : String → List specimen) :
    setCategoryNames (r :: rest) g
      = setCategoryNames rest
          (fun k => if k = toString r.itemId then
            (g k).map (fun s =>
              { s with CommonsCategoryName := CATEGORY_NAMESPACE ++ r.categoryName })
          else g k) := rfl

lemma setCategoryNames_untouched (rows : List wdqRow) :
    ∀ (g : String → List specimen) (k : String),
      (∀ r ∈ rows, toString r.itemId ≠ k) → setCategoryNames rows g k = g k := by
  induction rows with
  | nil => intro g k _; rfl
  | cons r rest ih =>
    intro g k h
    rw [setCategoryNames_cons]
    have hr : toString r.itemId ≠ k := h r (List.mem_cons_self r rest)
    have hrest : ∀ q ∈ rest, toString q.itemId ≠ k :=
      fun q hq => h q (List.mem_cons_of_mem r hq)
    rw [ih _ k hrest]
    rw [if_neg (fun he => hr he.symm)]

lemma setCategoryNames_hits (rows : List wdqRow) :
    ∀ (g : String → List specimen) (row : wdqRow),
      (rows.map (fun r => toString r.itemId)).Nodup → row ∈ rows →
      setCategoryNames rows g (toString row.itemId)
        = (g (toString row.itemId)).map (fun s =>
            { s with CommonsCategoryName := CATEGORY_NAMESPACE ++ row.categoryName }) := by
  induction rows with
  | nil => intro g row _ hrow; exact absurd hrow (List.not_mem_nil row)
  | cons r rest ih =>
    intro g row hnd hrow
    rw [List.map_cons, List.nodup_cons] at hnd
    rw [setCategoryNames_cons]
    rcases List.mem_cons.mp hrow with heq | hmem
    · subst heq
      have hnone : ∀ q ∈ rest, toString q.itemId ≠ toString row.itemId := by
        intro q hq he
        exact hnd.1 (he ▸ List.mem_map_of_mem (fun r => toString r.itemId) hq)
      rw [setCategoryNames_untouched rest _ (toString row.itemId) hnone]
      simp
    · have hne : toString row.itemId ≠ toString r.itemId := by
        intro he
        exact hnd.1 (he ▸ List.mem_map_of_mem (fun r => toString r.itemId) hmem)
      rw [ih _ row hnd.2 hmem]
      rw [if_neg hne]

/-- C5: results are indexed by identifier, not by response position:
for any row of the response (identifiers pairwise distinct), every
specimen of the group stored under that row's identifier receives the
row's namespaced category name, and any group key matching no response
row is left exactly as it was (so records created with the empty
category name silently keep it). -/
theorem C5_resolution_by_identifier (rows : List wdqRow)
    (groups : String → List specimen) (row : wdqRow)
    (hnd : (rows.map (fun r => toString r.itemId)).Nodup) (hrow : row ∈ rows) :
    setCategoryNames rows groups (toString row.itemId)
      = (groups (toString row.itemId)).map (fun s =>
          { s with CommonsCategoryName := CATEGORY_NAMESPACE ++ row.categoryName })
    ∧ ∀ k, (∀ r ∈ rows, toString r.itemId ≠ k) →
        setCategoryNames rows groups k = groups k :=
  ⟨setCategoryNames_hits rows groups row hnd hrow,
   fun k hk => setCategoryNames_untouched rows groups k hk⟩

def rows1 : List wdqRow := [{ itemId := 1, categoryName := "Abies alba" }]

def groups1 : String → List specimen := fun k => if k = "1" then [spec0] else []

/-- Witness for C5 on a one-row response: the single group is rewritten
with the resolved name. -/
theorem C5_resolution_by_identifier_witness :
    setCategoryNames rows1 groups1 (toString (1 : Nat))
      = [{ spec0 with CommonsCategoryName := "Category:Abies alba" }] :=
  ((C5_resolution_by_identifier rows1 groups1
      { itemId := 1, categoryName := "Abies alba" } (by decide) (by decide)).1).trans
    (by decide)

/- C6: subCatsFiles is computed only behind the subCats > 0 gate. -/

/-- Invariant carried through the page folds: every entry either has a
positive subcats count and then its subCatsFiles equals the result of
the dedicated subcategory query for its key, or a non-positive count and
then its subCatsFiles is 0; any entry with a non-zero subcats count was
written from some page of the run whose subcats value it carries. -/
def gateInv (sub : String → List commonsPage) (pages : List commonsPage)
    (m : String → categoryInfo) : Prop :=
  ∀ t, (0 < (m t).subCats → (m t).subCatsFiles = queryCommonsSubcats sub t)
    ∧ ((m t).subCats ≤ 0 → (m t).subCatsFiles = 0)
    ∧ ((m t).subCats ≠ 0 →
        ∃ p, p ∈ pages ∧ p.title = t ∧ pageSubcats p = (m t).subCats)

lemma gateInv_step (sub : String → List commonsPage) (pages : List commonsPage)
    (hcons : ∀ p ∈ pages, ∀ q ∈ pages, p.title = q.title → p.subcats = q.subcats)
    (m : String → categoryInfo) (p : commonsPage)
    (hp : p ∈ pages) (hm : gateInv sub pages m) :
    gateInv sub pages (processPage sub m p) := by
  intro t
  unfold processPage
  by_cases ht : t = p.title
  · rw [if_pos ht]
    subst ht
    refine ⟨?_, ?_, ?_⟩
    · intro hpos
      simp only at hpos ⊢
      rw [if_pos hpos]
    · intro hle
      simp only at hle ⊢
      rw [if_neg (by omega)]
      rcases le_or_lt (m p.title).subCats 0 with hprev | hprev
      · exact ((hm p.title).2.1) hprev
      · obtain ⟨q, hq, hqt, hqv⟩ := (hm p.title).2.2 (by omega)
        have hsame : q.subcats = p.subcats := hcons q hq p hp hqt
        have : pageSubcats q = pageSubcats p := by
          unfold pageSubcats
          rw [hsame]
        omega
    · intro hne
      simp only at hne ⊢
      exact ⟨p, hp, rfl, rfl⟩
  · rw [if_neg ht]
    exact hm t

lemma gateInv_fold (sub : String → List commonsPage) (pages : List commonsPage)
    (hcons : ∀ p ∈ pages, ∀ q ∈ pages, p.title = q.title → p.subcats = q.subcats) :
    ∀ (rest : List commonsPage) (m : String → categoryInfo),
      (∀ p ∈ rest, p ∈ pages) → gateInv sub pages m →
      gateInv sub pages (rest.foldl (processPage sub) m) := by
  intro rest
  induction rest with
  | nil => intro m _ hm; exact hm
  | cons p ps ih =>
    intro m hsub hm
    rw [List.foldl_cons]
    exact ih _ (fun q hq => hsub q (List.mem_cons_of_mem p hq))
      (gateInv_step sub pages hcons m p (hsub p (List.mem_cons_self p ps)) hm)

/-- C6: for every category in the index produced by a run whose response
pages are per-title consistent (the same title always reports the same
subcats count, as a deterministic service does), subCatsFiles equals the
result of the one-level subcategory query exactly when the stored
subcats count is positive, and is 0 otherwise. -/
theorem C6_subcats_gate (sub : String → List commonsPage)
    (resp : List String → List commonsPage) (chunks : List (List String))
    (t : String)
    (hcons : ∀ p ∈ chunks.flatMap resp, ∀ q ∈ chunks.flatMap resp,
      p.title = q.title → p.subcats = q.subcats) :
    (0 < ((runFetcher sub resp chunks) t).subCats →
      ((runFetcher sub resp chunks) t).subCatsFiles = queryCommonsSubcats sub t)
    ∧ (((runFetcher sub resp chunks) t).subCats ≤ 0 →
      ((runFetcher sub resp chunks) t).subCatsFiles = 0) := by
  have h0 : gateInv sub (chunks.flatMap resp) (fun _ => ⟨0, 0, 0⟩) := by
    intro t'
    refine ⟨fun h => absurd h (by simp), fun _ => rfl, fun h => absurd rfl h⟩
  have hfin := gateInv_fold sub (chunks.flatMap resp) hcons
    (chunks.flatMap resp) (fun _ => ⟨0, 0, 0⟩) (fun _ hq => hq) h0 t
  rw [runFetcher_flat]
  exact ⟨hfin.1, hfin.2.1⟩

def pageA : commonsPage :=
  { title := "Category:Abies alba", files := some 3, subcats := some 1 }

def subPageA : commonsPage :=
  { title := "Category:Abies alba by year", files := some 2, subcats := some 0 }

def sub1 : String → List commonsPage := fun _ => [subPageA]

def resp1 : List String → List commonsPage := fun _ => [pageA]

def chunks1 : List (List String) := [["Category:Abies alba"]]

/-- Witness for C6: a category reporting one subcategory gets the
subcategory query's sum as its subCatsFiles. -/
theorem C6_subcats_gate_witness :
    ((runFetcher sub1 resp1 chunks1) "Category:Abies alba").subCatsFiles
      = queryCommonsSubcats sub1 "Category:Abies alba" :=
  (C6_subcats_gate sub1 resp1 chunks1 "Category:Abies alba" (by decide)).1
    (by decide)

/- Report renderer: sort, template execution, publish (updateWikiPage). -/

/-- The Less of byOriginalName in the code: ordinary string comparison
on the original taxon name. -/
def byOriginalNameLess (a b : specimen) : Prop := a.OriginalName < b.OriginalName

/-- The order sort.Sort establishes: position i before position j means
Less(j, i) is false.  This is the reflexive negation of the code's
Less. -/
def sortRel (a b : specimen) : Prop := ¬ byOriginalNameLess b a

instance : DecidableRel sortRel := fun a b =>
  show Decidable ¬ (b.OriginalName < a.OriginalName) from inferInstance

instance : IsTotal specimen sortRel :=
  ⟨fun a b => by
    unfold sortRel byOriginalNameLess
    rcases le_total a.OriginalName b.OriginalName with h | h
    · exact Or.inl (not_lt.mpr h)
    · exact Or.inr (not_lt.mpr h)⟩

instance : IsTrans specimen sortRel :=
  ⟨fun a b c hab hbc => by
    unfold sortRel byOriginalNameLess at hab hbc ⊢
    exact not_lt.mpr (le_trans (not_lt.mp hab) (not_lt.mp hbc))⟩

/-- The buffered-and-sorted sequence of updateWikiPage.  sort.Sort only
guarantees some Less-nondecreasing rearrangement (ties in arbitrary
order); the rearrangement is modelled by insertion sort over the same
order. -/
def sortSpecimens (l : List specimen) : List specimen :=
  l.insertionSort sortRel

/-- C8: the renderer sorts the complete buffered sequence ascending by
original taxon name: the rendered sequence is a permutation of the
merged records (nothing is lost by sorting) in which every record's
original name is at most every later record's original name. -/
theorem C8_sorted_render (l : List specimen) :
    (sortSpecimens l).Perm l
    ∧ List.Pairwise (fun a b => a.OriginalName ≤ b.OriginalName)
        (sortSpecimens l) := by
  constructor
  · exact List.perm_insertionSort sortRel l
  · refine List.Pairwise.imp ?_ (List.sorted_insertionSort sortRel l)
    intro a b hab
    exact not_lt.mp hab

/-- The 52 distinct category names of a response large enough to make
the chunking loop spawn more than one concurrent queryCommons task. -/
def rows52 : List wdqRow :=
  (List.range 52).map (fun i => { itemId := i, categoryName := "N" ++ toString i })

/-- C9 evidence: with 52 resolved category names the code spawns two
chunk tasks, i.e. two goroutines run queryCommons at the same time, and
every write either task performs targets the one shared categoryInfo
map with no lock, no per-task map, and no write-carrying channel in the
source. -/
theorem C9_concurrent_chunk_tasks :
    (commonsChunks (categoryNamesOf rows52)).length = 2
    ∧ 1 < (commonsChunks (categoryNamesOf rows52)).length := by decide

/-- The publish call handed to wiki.Edit: page title, section number,
rendered text, fixed summary, and the not-minor flag. -/
structure editCall where
  title : String
  sectionNumber : String
  text : String
  summary : String
  notminor : Bool
deriving DecidableEq, Repr

/-- updateWikiPage after the channel has been drained: read the template
file (fatal on error), parse it (fatal on error), execute it over the
sorted buffer — the execution result is a pair of the text produced so
far and an optional execution error, and the code ignores the error
component — then hand the buffered text to the edit call.  T is the
parsed-template type; exec is the template engine. -/
def updateWikiPage {T : Type} (pageTitle sectionNumber : String)
    (templateRead : Except String String)
    (parse : String → Except String T)
    (exec : T → List specimen → String × Option String)
    (specimens : List specimen) : Except String editCall :=
  match templateRead with
  | Except.error e => Except.error e
  | Except.ok bytes =>
    match parse bytes with
    | Except.error e => Except.error e
    | Except.ok tmpl =>
      Except.ok
        { title := pageTitle
          sectionNumber := sectionNumber
          text := (exec tmpl (sortSpecimens specimens)).1
          summary := "Mise à jour"
          notminor := true }

/-- C10: a template-execution failure does not abort the run: when the
template was read and parsed, and execution returns buffered text
together with an error, updateWikiPage still produces the edit call,
publishing exactly the text buffered up to the failure point. -/
theorem C10_template_error_discarded {T : Type}
    (pageTitle sectionNumber : String)
    (templateRead : Except String String)
    (parse : String → Except String T)
    (exec : T → List specimen → String × Option String)
    (specimens : List specimen) (bytes : String) (tmpl : T)
    (bufferedText e : String)
    (h1 : templateRead = Except.ok bytes)
    (h2 : parse bytes = Except.ok tmpl)
    (h3 : exec tmpl (sortSpecimens specimens) = (bufferedText, some e)) :
    updateWikiPage pageTitle sectionNumber templateRead parse exec specimens
      = Except.ok
          { title := pageTitle
            sectionNumber := sectionNumber
            text := bufferedText
            summary := "Mise à jour"
            notminor := true } := by
  unfold updateWikiPage
  rw [h1]
  simp only
  rw [h2]
  simp only
  rw [h3]

def templateRead0 : Except String String := Except.ok "¤"

def parse0 : String → Except String String := fun s => Except.ok s

def exec0 : String → List specimen → String × Option String :=
  fun _ _ => ("| Abies", some "template: table: executing at: boom")

/-- Witness for C10: a failing template execution still yields an edit
call carrying the text buffered before the failure. -/
theorem C10_template_error_discarded_witness :
    updateWikiPage "Projet:Collections" "3" templateRead0 parse0 exec0 []
      = Except.ok
          { title := "Projet:Collections"
            sectionNumber := "3"
            text := "| Abies"
            summary := "Mise à jour"
            notminor := true } :=
  C10_template_error_discarded "Projet:Collections" "3" templateRead0 parse0
    exec0 [] "¤" "¤" "| Abies" "template: table: executing at: boom" rfl rfl rfl
